import Mathlib

/-!
Verification of the bordered text-layout engine of `nfo_gen/nfo_template.py`
(repository nfo-maker).

Python strings are modelled as `List Char`; Python `int` widths are `Int`
(negative slice bounds matter in `_format_line`).  A Python function that can
raise (`textwrap.wrap` raises `ValueError` on non-positive width) is modelled
with `Option`, `none` standing for the raised exception propagating out.
-/

namespace NfoMaker

abbrev Str := List Char

/-- The whitespace set used by `textwrap` (`string.whitespace`-style: the six
ASCII whitespace characters handled by `str.strip`/`\s` on this input class). -/
def isPySpace (c : Char) : Bool :=
  c == ' ' || c == '\t' || c == '\n' || c == '\r' || c == '\x0b' || c == '\x0c'

/-- Python `s.strip()`. -/
def pyStrip (s : Str) : Str :=
  ((s.dropWhile isPySpace).reverse.dropWhile isPySpace).reverse

/-- Python `s.rstrip()`. -/
def pyRstrip (s : Str) : Str :=
  (s.reverse.dropWhile isPySpace).reverse

/-- Python `s[:n]` (negative `n` counts from the end, clamped at 0). -/
def pyTake (s : Str) (n : Int) : Str :=
  if n < 0 then s.take ((s.length : Int) + n).toNat else s.take n.toNat

/-- Python `s.center(w)`: returns `s` unchanged when it already fills the
width; otherwise CPython computes `left = marg / 2 + (marg & w & 1)`, i.e. the
extra space of an odd margin goes to the left exactly when the width is odd. -/
def pyCenter (s : Str) (w : Int) : Str :=
  if w ≤ (s.length : Int) then s
  else
    let wn := w.toNat
    let marg := wn - s.length
    let left := marg / 2 + (if marg % 2 = 1 ∧ wn % 2 = 1 then 1 else 0)
    List.replicate left ' ' ++ s ++ List.replicate (marg - left) ' '

/-- Python `s.ljust(w)`. -/
def pyLjust (s : Str) (w : Int) : Str :=
  if w ≤ (s.length : Int) then s
  else s ++ List.replicate (w.toNat - s.length) ' '

/-- `_format_line` of `nfo_template.py`: dot-leader key/value rendering when
`use_dots` and the line has a `:`, centered rendering otherwise. -/
def format_line (line : Str) (width : Int) (use_dots : Bool) : Str :=
  if use_dots && line.contains ':' then
    let key := pyStrip (line.takeWhile (fun c => c != ':'))
    let value := pyStrip ((line.dropWhile (fun c => c != ':')).drop 1)
    if value.isEmpty then
      pyCenter (pyTake key width) width
    else
      let usable : Int := width - 10
      let key2 := pyTake key usable
      let value2 := pyTake value usable
      let dot_width : Int := max 2 (usable - key2.length - value2.length)
      let combined :=
        List.replicate 5 ' ' ++ key2 ++ List.replicate dot_width.toNat '.' ++
          value2 ++ List.replicate 5 ' '
      pyLjust (pyTake combined width) width
  else
    pyCenter (pyTake line width) width

/-- `_extract_motifs`: keep template body lines of length at least 6, pairing
the first three characters with the last three. -/
def extract_motifs : List Str → List (Str × Str)
  | [] => []
  | l :: ls =>
    if l.length < 6 then extract_motifs ls
    else (l.take 3, l.drop (l.length - 3)) :: extract_motifs ls

/-- `_build_separator`: 3-line titled separator from the first three template
lines; the middle is rebuilt around the centered, truncated title. -/
def build_separator (title : Str) (template_lines : List Str) : List Str :=
  match template_lines with
  | top :: middle :: bottom :: _ =>
    if middle.length < 2 then [top, middle, bottom]
    else
      let inner_width : Int := (middle.length : Int) - 2
      let safe_title := pyTake title inner_width
      let centered := pyCenter safe_title inner_width
      [top, middle.take 1 ++ centered ++ middle.drop (middle.length - 1), bottom]
  | _ => []

/-- `str.expandtabs(8)`: tab stops every 8 columns, `\n`/`\r` reset the column. -/
def expandtabsGo : Str → Nat → Str
  | [], _ => []
  | c :: cs, col =>
    if c = '\t' then
      let n := 8 - col % 8
      List.replicate n ' ' ++ expandtabsGo cs (col + n)
    else if c = '\n' ∨ c = '\r' then c :: expandtabsGo cs 0
    else c :: expandtabsGo cs (col + 1)

/-- `TextWrapper._munge_whitespace` with the default options: expand tabs then
replace every whitespace character by a plain space. -/
def munge_whitespace (s : Str) : Str :=
  (expandtabsGo s 0).map (fun c => if isPySpace c then ' ' else c)

/-- Worker for `splitRuns`; each step consumes at least one character, so a
fuel of the string's length never runs out. -/
def splitRunsGo : Nat → Str → List Str
  | 0, _ => []
  | _ + 1, [] => []
  | fuel + 1, c :: cs =>
    (c :: cs.takeWhile (fun d => isPySpace d == isPySpace c)) ::
      splitRunsGo fuel (cs.dropWhile (fun d => isPySpace d == isPySpace c))

/-- `TextWrapper._split` with `break_on_hyphens=False`: the list of maximal
runs of whitespace / non-whitespace characters, in order. -/
def splitRuns (s : Str) : List Str :=
  splitRunsGo s.length s

/-- The greedy inner loop of `_wrap_chunks`: chunks that still fit into the
remaining width, and the unconsumed rest. -/
def greedyTake (width : Int) (cur_len : Int) : List Str → List Str × List Str
  | [] => ([], [])
  | c :: cs =>
    if cur_len + (c.length : Int) ≤ width then
      let p := greedyTake width (cur_len + (c.length : Int)) cs
      (c :: p.1, p.2)
    else ([], c :: cs)

/-- Outer loop of `TextWrapper._wrap_chunks` with `break_long_words=False`,
`drop_whitespace=True`, empty indents, no `max_lines`.  `isFirst` tracks
"no line emitted yet"; each pass consumes at least one chunk, so a fuel of
`chunks.length + 1` never runs out. -/
def wrapChunksGo (width : Int) : Nat → List Str → Bool → List Str
  | 0, _, _ => []
  | _ + 1, [], _ => []
  | fuel + 1, c0 :: rest0, isFirst =>
    let chunks1 := if !isFirst && (pyStrip c0).isEmpty then rest0 else c0 :: rest0
    let tr := greedyTake width 0 chunks1
    let taken := tr.1
    let cur_rest : List Str × List Str :=
      match tr.2 with
      | [] => (taken, [])
      | r :: rs =>
        if width < (r.length : Int) ∧ taken = [] then (taken ++ [r], rs)
        else (taken, r :: rs)
    let cur := cur_rest.1
    let rest2 := cur_rest.2
    let cur2 :=
      match cur.getLast? with
      | some lastc => if (pyStrip lastc).isEmpty then cur.dropLast else cur
      | none => cur
    if cur2.isEmpty then wrapChunksGo width fuel rest2 isFirst
    else cur2.flatten :: wrapChunksGo width fuel rest2 false

/-- `textwrap.wrap(text, width, break_long_words=False, break_on_hyphens=False)`;
`none` models the `ValueError` raised on non-positive width. -/
def textwrap_wrap (text : Str) (width : Int) : Option (List Str) :=
  if width ≤ 0 then none
  else
    let chunks := splitRuns (munge_whitespace text)
    some (wrapChunksGo width (chunks.length + 1) chunks true)

/-- The emitting inner loop of `_frame_section_lines`: one bordered output
line per chunk, cycling motifs by the running physical-line index. -/
def emitChunks (motifs : List (Str × Str)) (inner_width : Int) (pad : Nat)
    (use_dots : Bool) : List Str → Nat → List Str
  | [], _ => []
  | ch :: chs, idx =>
    let m := motifs.getD (idx % motifs.length) ([], [])
    let safe_line := format_line ch inner_width (use_dots && ch.contains ':')
    (m.1 ++ List.replicate pad ' ' ++ safe_line ++ List.replicate pad ' ' ++ m.2) ::
      emitChunks motifs inner_width pad use_dots chs (idx + 1)

/-- The chunking of one render line in `_frame_section_lines`: wrap it (an
empty result is patched to a single empty chunk) or use it as-is. -/
def chunk_line (wrapFlag : Bool) (line : Str) (inner_width : Int) : Option (List Str) :=
  if wrapFlag then
    match textwrap_wrap line inner_width with
    | none => none
    | some cs => some (if cs.isEmpty then [[]] else cs)
  else some [line]

/-- The per-render-line loop of `_frame_section_lines`; a `none` render line is
the `pad_token` sentinel (its `chunks = [""]` assignment in the source is dead,
both branches of the `wrap` conditional overwrite `chunks`, and it sets
`line = ""`). -/
def frameLoop (motifs : List (Str × Str)) (inner_width : Int) (wrapFlag : Bool)
    (pad : Nat) (use_dots : Bool) : List (Option Str) → Nat → Option (List Str)
  | [], _ => some []
  | ol :: rest, idx =>
    match chunk_line wrapFlag (ol.getD []) inner_width with
    | none => none
    | some chunks =>
      match frameLoop motifs inner_width wrapFlag pad use_dots rest (idx + chunks.length) with
      | none => none
      | some restLines =>
        some (emitChunks motifs inner_width pad use_dots chunks idx ++ restLines)

/-- `_frame_section_lines`. -/
def frame_section_lines (lines : List Str) (template_lines : List Str)
    (wrapFlag : Bool) (pad : Nat) (use_dots : Bool) (add_pad_lines : Bool) :
    Option (List Str) :=
  if template_lines.length < 4 then some lines
  else
    match extract_motifs (template_lines.drop 3) with
    | [] => some lines
    | (sample_left, sample_right) :: motifs_rest =>
      let motifs := (sample_left, sample_right) :: motifs_rest
      let width : Int := ((template_lines.headD []).length : Int)
      let inner_width : Int :=
        width - (sample_left.length : Int) - (sample_right.length : Int) - 2 * (pad : Int)
      let cleaned := lines.filter (fun l => !l.isEmpty && !(pyStrip l).isEmpty)
      let render_lines : List (Option Str) :=
        if add_pad_lines then none :: cleaned.map some ++ [none] else cleaned.map some
      frameLoop motifs inner_width wrapFlag pad use_dots render_lines 0

/-- First loop of `render_nfo_from_sections`: every section named `Header`,
framed with `wrap=True, pad=1, use_dots=False, add_pad_lines=False`, falling
back to the raw section lines when framing yields an empty list. -/
def headerLoop (tpl : List Str) : List (Str × List Str) → Option (List Str)
  | [] => some []
  | (name, section_lines) :: rest =>
    if name = ("Header").data then
      match frame_section_lines section_lines tpl true 1 false false with
      | none => none
      | some framed =>
        match headerLoop tpl rest with
        | none => none
        | some r => some ((if framed.isEmpty then section_lines else framed) ++ r)
    else headerLoop tpl rest

/-- Second loop of `render_nfo_from_sections`: every non-`Header` section, its
separator (or bare name) followed by its framed content. -/
def sectionLoop (tpl : List Str) : List (Str × List Str) → Option (List Str)
  | [] => some []
  | (name, section_lines) :: rest =>
    if name = ("Header").data then sectionLoop tpl rest
    else
      let separator := build_separator name tpl
      let sepPart := if separator.isEmpty then [name] else separator
      match frame_section_lines section_lines tpl (name == ("Summary").data) 1
          (!(name == ("Summary").data)) true with
      | none => none
      | some framed =>
        match sectionLoop tpl rest with
        | none => none
        | some r => some (sepPart ++ framed ++ r)

/-- The `lines` list of `render_nfo_from_sections` just before the footer
handling: header banner, then the two section loops. -/
def body_lines (sections : List (Str × List Str)) (header_banner tpl : List Str) :
    Option (List Str) :=
  match headerLoop tpl sections with
  | none => none
  | some h =>
    match sectionLoop tpl sections with
    | none => none
    | some s => some (header_banner ++ h ++ s)

/-- The full `lines` list of `render_nfo_from_sections`: body plus footer
banner, preceded by one blank line when the body is non-empty and does not
already end in one. -/
def all_lines (sections : List (Str × List Str))
    (header_banner footer_banner tpl : List Str) : Option (List Str) :=
  match body_lines sections header_banner tpl with
  | none => none
  | some body =>
    if footer_banner.isEmpty then some body
    else if body ≠ [] ∧ body.getLast? ≠ some [] then
      some (body ++ ([] : Str) :: footer_banner)
    else some (body ++ footer_banner)

/-- Python `"\n".join`. -/
def joinNL : List Str → Str
  | [] => []
  | [l] => l
  | l :: l2 :: ls => l ++ '\n' :: joinNL (l2 :: ls)

/-- `render_nfo_from_sections` with the three banner artifacts passed as
inputs (the source reads them from files): joined lines, right-stripped, plus
a final newline.  (The source's `if line is not None` filter is vacuous: every
element of `lines` is a string.) -/
def render_nfo_from_sections (sections : List (Str × List Str))
    (header_banner footer_banner tpl : List Str) : Option Str :=
  (all_lines sections header_banner footer_banner tpl).map
    (fun ls => pyRstrip (joinNL ls) ++ ['\n'])

/-- Claim-side definition, following the spec's words (§4.4): "truncate or
right-pad (with spaces) the result to exactly `inner_width`". -/
def fit_to_width (s : Str) (w : Nat) : Str :=
  s.take w ++ List.replicate (w - (s.take w).length) ' '

/-- Claim-side definition following C4's words: split on the first `:`, trim
both sides; center the key alone (within the target width) when the value is
empty, otherwise 5 spaces, key truncated to `usable = w - 10`, a dot run of
length `max 2 (usable - len key - len value)`, value truncated to `usable`,
5 spaces, the whole fitted to exactly `w`. -/
def dot_leader_spec (line : Str) (w : Nat) : Str :=
  let key := pyStrip (line.takeWhile (fun c => c != ':'))
  let value := pyStrip ((line.dropWhile (fun c => c != ':')).drop 1)
  if value.isEmpty then pyCenter (key.take w) (w : Int)
  else
    let usable := w - 10
    let key2 := key.take usable
    let value2 := value.take usable
    let dot_width := max 2 (usable - key2.length - value2.length)
    fit_to_width
      (List.replicate 5 ' ' ++ key2 ++ List.replicate dot_width '.' ++
        value2 ++ List.replicate 5 ' ') w

/-- Claim-side definition following C3's words: the block emitted for a
section named `Header` — framed with `wrap=true, pad=1, use_dots=false,
add_pad_lines=false`, the raw lines when framing yields nothing. -/
def header_block (tpl : List Str) (s : Str × List Str) : Option (List Str) :=
  (frame_section_lines s.2 tpl true 1 false false).map
    (fun framed => if framed.isEmpty then s.2 else framed)

/-- Claim-side definition following C3's words: the block emitted for any
other section — its titled separator (the bare name when the separator
builder returns nothing) followed by the content framed with
`wrap=(name=="Summary"), pad=1, use_dots=(name!="Summary"),
add_pad_lines=true`. -/
def other_block (tpl : List Str) (s : Str × List Str) : Option (List Str) :=
  (frame_section_lines s.2 tpl (s.1 == ("Summary").data) 1
      (!(s.1 == ("Summary").data)) true).map
    (fun framed =>
      (if (build_separator s.1 tpl).isEmpty then [s.1] else build_separator s.1 tpl)
        ++ framed)

/-- Fixture: a width-12 separator template with a single motif line. -/
def sepT12 : List Str :=
  [("============").data, ("=          =").data, ("============").data,
   ("=-=      =-=").data]

/-- Fixture: a width-20 separator template with two motif lines. -/
def sepT20 : List Str :=
  [("====================").data, ("=                  =").data,
   ("====================").data, ("=-=              =-=").data,
   ("(-(              )-)").data]

/-! ### Lemmas about the Python string primitives -/

theorem pyTake_natCast (s : Str) (n : Nat) : pyTake s (n : Int) = s.take n := by
  simp [pyTake]

theorem length_pyTake_le (s : Str) (n : Int) (h : 0 ≤ n) :
    (pyTake s n).length ≤ n.toNat := by
  rw [pyTake, if_neg (by omega)]
  simp [List.length_take]

theorem length_pyCenter (s : Str) (w : Int) (h : s.length ≤ w.toNat) :
    (pyCenter s w).length = w.toNat := by
  rw [pyCenter]
  split
  · next hle => omega
  · next hgt =>
    simp only [List.length_append, List.length_replicate]
    split <;> omega

theorem length_pyLjust (s : Str) (w : Int) (h : s.length ≤ w.toNat) :
    (pyLjust s w).length = w.toNat := by
  rw [pyLjust]
  split
  · next hle => omega
  · next hgt => simp only [List.length_append, List.length_replicate]; omega

theorem format_line_length (line : Str) (w : Int) (ud : Bool) (h : 0 ≤ w) :
    (format_line line w ud).length = w.toNat := by
  rw [format_line]
  split
  · dsimp only
    split
    · exact length_pyCenter _ _ (length_pyTake_le _ _ h)
    · exact length_pyLjust _ _ (length_pyTake_le _ _ h)
  · exact length_pyCenter _ _ (length_pyTake_le _ _ h)

theorem dropWhile_eq_self_of_neg (p : Char → Bool) (s : Str)
    (h : ∀ c ∈ s, p c = false) : s.dropWhile p = s := by
  cases s with
  | nil => rfl
  | cons a t =>
    exact List.dropWhile_cons_of_neg (by simp [h a (List.mem_cons_self a t)])

theorem pyStrip_eq_self (s : Str) (h : ∀ c ∈ s, isPySpace c = false) :
    pyStrip s = s := by
  rw [pyStrip, dropWhile_eq_self_of_neg _ _ h,
    dropWhile_eq_self_of_neg _ _ (by intro c hc; exact h c (List.mem_reverse.mp hc)),
    List.reverse_reverse]

theorem all_of_dropWhile_all (p : Char → Bool) (s : Str)
    (h : ∀ c ∈ s.dropWhile p, p c = true) : ∀ c ∈ s, p c = true := by
  induction s with
  | nil => simp
  | cons a t ih =>
    by_cases hp : p a = true
    · rw [List.dropWhile_cons_of_pos hp] at h
      intro c hc
      rcases List.mem_cons.mp hc with rfl | hc
      · exact hp
      · exact ih h c hc
    · rw [List.dropWhile_cons_of_neg (by simpa using hp)] at h
      exact h

theorem pyStrip_eq_nil_iff (s : Str) :
    pyStrip s = [] ↔ ∀ c ∈ s, isPySpace c = true := by
  rw [pyStrip]
  constructor
  · intro h c hc
    have h1 : (s.dropWhile isPySpace).reverse.dropWhile isPySpace = [] := by
      simpa using congrArg List.reverse h
    have h2 : ∀ c ∈ (s.dropWhile isPySpace).reverse, isPySpace c = true :=
      List.dropWhile_eq_nil_iff.mp h1
    have h3 : ∀ c ∈ s.dropWhile isPySpace, isPySpace c = true := by
      intro c hc; exact h2 c (List.mem_reverse.mpr hc)
    exact all_of_dropWhile_all _ _ h3 c hc
  · intro h
    have h1 : s.dropWhile isPySpace = [] :=
      List.dropWhile_eq_nil_iff.mpr h
    simp [h1]

theorem pyRstrip_getLast_not_space (s : Str) (c : Char)
    (h : (pyRstrip s).getLast? = some c) : isPySpace c = false := by
  rw [pyRstrip, List.getLast?_reverse] at h
  cases hd : s.reverse.dropWhile isPySpace with
  | nil => rw [hd] at h; simp at h
  | cons a t =>
    rw [hd] at h
    simp at h
    have hw : s.reverse.dropWhile isPySpace ≠ [] := by rw [hd]; simp
    have hh := List.head_dropWhile_not isPySpace (l := s.reverse) (w := hw)
    have h1 : (s.reverse.dropWhile isPySpace).head? = some a := by rw [hd]; rfl
    have h2 : (s.reverse.dropWhile isPySpace).head? =
        some ((s.reverse.dropWhile isPySpace).head hw) := List.head?_eq_head hw
    have h3 : (s.reverse.dropWhile isPySpace).head hw = a := by
      rw [h1] at h2; exact (Option.some.inj h2).symm
    rw [← h, ← h3]
    exact hh

/-! ### Lemmas about motif extraction -/

theorem extract_motifs_mem {ls : List Str} {m : Str × Str}
    (hm : m ∈ extract_motifs ls) : m.1.length = 3 ∧ m.2.length = 3 := by
  induction ls with
  | nil => simp [extract_motifs] at hm
  | cons l t ih =>
    rw [extract_motifs] at hm
    split at hm
    · exact ih hm
    · next h6 =>
      rcases List.mem_cons.mp hm with rfl | h
      · constructor
        · simp [List.length_take]; omega
        · simp [List.length_drop]; omega
      · exact ih h

theorem extract_motifs_eq_nil {ls : List Str} (h : ∀ l ∈ ls, l.length < 6) :
    extract_motifs ls = [] := by
  induction ls with
  | nil => rfl
  | cons l t ih =>
    rw [extract_motifs, if_pos (h l (List.mem_cons_self l t))]
    exact ih (fun x hx => h x (List.mem_cons_of_mem l hx))

theorem getD_mem {α : Type} (l : List α) (i : Nat) (d : α) (h : i < l.length) :
    l.getD i d ∈ l := by
  rw [List.getD_eq_getElem l d h]
  exact List.getElem_mem h

/-! ### Lemmas about the framing loops -/

theorem emitChunks_length (m : List (Str × Str)) (iw : Int) (pad : Nat) (ud : Bool) :
    ∀ (chunks : List Str) (idx : Nat),
      (emitChunks m iw pad ud chunks idx).length = chunks.length := by
  intro chunks
  induction chunks with
  | nil => intro idx; rfl
  | cons ch chs ih => intro idx; simp [emitChunks, ih (idx + 1)]

theorem emitChunks_ne_nil (m : List (Str × Str)) (iw : Int) (pad : Nat) (ud : Bool)
    (chunks : List Str) (idx : Nat) (h : chunks ≠ []) :
    emitChunks m iw pad ud chunks idx ≠ [] := by
  cases chunks with
  | nil => exact absurd rfl h
  | cons ch chs => simp [emitChunks]

theorem emitChunks_mem (m : List (Str × Str)) (iw : Int) (pad : Nat) (ud : Bool)
    (hm : m ≠ []) :
    ∀ (chunks : List Str) (idx : Nat), ∀ l ∈ emitChunks m iw pad ud chunks idx,
      ∃ mot ch, mot ∈ m ∧
        l = mot.1 ++ List.replicate pad ' ' ++
              format_line ch iw (ud && ch.contains ':') ++
              List.replicate pad ' ' ++ mot.2 := by
  intro chunks
  induction chunks with
  | nil => intro idx l hl; simp [emitChunks] at hl
  | cons ch chs ih =>
    intro idx l hl
    rw [emitChunks] at hl
    rcases List.mem_cons.mp hl with rfl | h
    · exact ⟨m.getD (idx % m.length) ([], []), ch,
        getD_mem _ _ _ (Nat.mod_lt _ (List.length_pos.mpr hm)), rfl⟩
    · exact ih (idx + 1) l h

theorem emitChunks_getD (m : List (Str × Str)) (iw : Int) (pad : Nat) (ud : Bool) :
    ∀ (chunks : List Str) (idx j : Nat), j < chunks.length →
      (emitChunks m iw pad ud chunks idx).getD j [] =
        (m.getD ((idx + j) % m.length) ([], [])).1 ++ List.replicate pad ' ' ++
          format_line (chunks.getD j []) iw (ud && (chunks.getD j []).contains ':') ++
          List.replicate pad ' ' ++ (m.getD ((idx + j) % m.length) ([], [])).2 := by
  intro chunks
  induction chunks with
  | nil => intro idx j hj; simp at hj
  | cons ch chs ih =>
    intro idx j hj
    cases j with
    | zero => simp [emitChunks]
    | succ j' =>
      have h := ih (idx + 1) j' (by simpa using hj)
      have harith : idx + 1 + j' = idx + (j' + 1) := by omega
      rw [emitChunks]
      simpa [harith] using h

theorem chunk_line_ne_nil (wf : Bool) (line : Str) (iw : Int) (cs : List Str)
    (h : chunk_line wf line iw = some cs) : cs ≠ [] := by
  rw [chunk_line] at h
  split at h
  · cases hw : textwrap_wrap line iw with
    | none => rw [hw] at h; simp at h
    | some cs0 =>
      rw [hw] at h
      simp only [Option.some.injEq] at h
      subst h
      split <;> simp_all
  · simp only [Option.some.injEq] at h
    subst h
    simp

theorem frameLoop_mem (m : List (Str × Str)) (iw : Int) (wf : Bool) (pad : Nat)
    (ud : Bool) (hm : m ≠ []) :
    ∀ (rls : List (Option Str)) (idx : Nat) (out : List Str),
      frameLoop m iw wf pad ud rls idx = some out →
      ∀ l ∈ out, ∃ mot ch, mot ∈ m ∧
        l = mot.1 ++ List.replicate pad ' ' ++
              format_line ch iw (ud && ch.contains ':') ++
              List.replicate pad ' ' ++ mot.2 := by
  intro rls
  induction rls with
  | nil =>
    intro idx out h l hl
    rw [frameLoop] at h
    simp only [Option.some.injEq] at h
    subst h
    simp at hl
  | cons ol rest ih =>
    intro idx out h l hl
    rw [frameLoop] at h
    cases hc : chunk_line wf (ol.getD []) iw with
    | none => rw [hc] at h; simp at h
    | some chunks =>
      rw [hc] at h
      dsimp only at h
      cases hr : frameLoop m iw wf pad ud rest (idx + chunks.length) with
      | none => rw [hr] at h; simp at h
      | some restL =>
        rw [hr] at h
        simp only [Option.some.injEq] at h
        subst h
        rcases List.mem_append.mp hl with h1 | h1
        · exact emitChunks_mem m iw pad ud hm chunks idx l h1
        · exact ih _ _ hr l h1

theorem frameLoop_getD (m : List (Str × Str)) (iw : Int) (wf : Bool) (pad : Nat)
    (ud : Bool) :
    ∀ (rls : List (Option Str)) (idx : Nat) (out : List Str),
      frameLoop m iw wf pad ud rls idx = some out →
      ∀ j, j < out.length → ∃ ch,
        out.getD j [] =
          (m.getD ((idx + j) % m.length) ([], [])).1 ++ List.replicate pad ' ' ++
            format_line ch iw (ud && ch.contains ':') ++
            List.replicate pad ' ' ++ (m.getD ((idx + j) % m.length) ([], [])).2 := by
  intro rls
  induction rls with
  | nil =>
    intro idx out h j hj
    rw [frameLoop] at h
    simp only [Option.some.injEq] at h
    subst h
    simp at hj
  | cons ol rest ih =>
    intro idx out h j hj
    rw [frameLoop] at h
    cases hc : chunk_line wf (ol.getD []) iw with
    | none => rw [hc] at h; simp at h
    | some chunks =>
      rw [hc] at h
      dsimp only at h
      cases hr : frameLoop m iw wf pad ud rest (idx + chunks.length) with
      | none => rw [hr] at h; simp at h
      | some restL =>
        rw [hr] at h
        simp only [Option.some.injEq] at h
        subst h
        by_cases hjlt : j < (emitChunks m iw pad ud chunks idx).length
        · refine ⟨chunks.getD j [], ?_⟩
          rw [List.getD_append _ _ _ _ hjlt]
          exact emitChunks_getD m iw pad ud chunks idx j
            (by rwa [emitChunks_length] at hjlt)
        · have hlen : (emitChunks m iw pad ud chunks idx).length = chunks.length :=
            emitChunks_length m iw pad ud chunks idx
          have hge : chunks.length ≤ j := by omega
          obtain ⟨ch, hch⟩ := ih (idx + chunks.length) restL hr (j - chunks.length)
            (by simp [List.length_append, hlen] at hj; omega)
          refine ⟨ch, ?_⟩
          have harith : idx + chunks.length + (j - chunks.length) = idx + j := by omega
          rw [List.getD_append_right _ _ _ _ (by omega), hlen]
          rw [harith] at hch
          exact hch

theorem frameLoop_eq_nil (m : List (Str × Str)) (iw : Int) (wf : Bool) (pad : Nat)
    (ud : Bool) :
    ∀ (rls : List (Option Str)) (idx : Nat),
      frameLoop m iw wf pad ud rls idx = some [] → rls = [] := by
  intro rls
  cases rls with
  | nil => intro idx _; rfl
  | cons ol rest =>
    intro idx h
    rw [frameLoop] at h
    cases hc : chunk_line wf (ol.getD []) iw with
    | none => rw [hc] at h; simp at h
    | some chunks =>
      rw [hc] at h
      dsimp only at h
      cases hr : frameLoop m iw wf pad ud rest (idx + chunks.length) with
      | none => rw [hr] at h; simp at h
      | some restL =>
        rw [hr] at h
        simp only [Option.some.injEq] at h
        exact absurd (List.append_eq_nil.mp h).1
          (emitChunks_ne_nil m iw pad ud chunks idx (chunk_line_ne_nil wf _ iw chunks hc))

/-! ### Claims C1, C7, C10 -/

/-- C1: Width invariant — for every section framed by the Content Framer with
a separator template of at least 4 lines yielding at least one motif, whose
top line has width `W` with `W ≥ 6 + 2·pad`, every emitted output line has
length exactly `W`.  (In fact no oversized-token exception ever occurs:
`_format_line` clips every chunk to the inner width, see C2.) -/
theorem claim_C1_width_invariant
    (lines tpl : List Str) (wrapFlag : Bool) (pad : Nat) (use_dots add_pad_lines : Bool)
    (framed : List Str)
    (h4 : 4 ≤ tpl.length)
    (hmot : extract_motifs (tpl.drop 3) ≠ [])
    (hW : 6 + 2 * pad ≤ (tpl.headD []).length)
    (hfr : frame_section_lines lines tpl wrapFlag pad use_dots add_pad_lines = some framed) :
    ∀ l ∈ framed, l.length = (tpl.headD []).length := by
  intro l hl
  unfold frame_section_lines at hfr
  rw [if_neg (by omega)] at hfr
  cases hx : extract_motifs (tpl.drop 3) with
  | nil => exact absurd hx hmot
  | cons m ms =>
    obtain ⟨ml, mr⟩ := m
    rw [hx] at hfr
    dsimp only at hfr
    have hmlen : ((ml, mr) : Str × Str).1.length = 3 ∧ ((ml, mr) : Str × Str).2.length = 3 :=
      extract_motifs_mem (by rw [hx]; exact List.mem_cons_self _ _)
    obtain ⟨hml, hmr⟩ := hmlen
    obtain ⟨mot, ch, hmem, rfl⟩ := frameLoop_mem _ _ _ _ _ (by simp) _ _ _ hfr l hl
    obtain ⟨hmo1, hmo2⟩ := extract_motifs_mem (m := mot) (by rw [hx]; exact hmem)
    simp only [List.length_append, List.length_replicate, hmo1, hmo2]
    rw [format_line_length _ _ _ (by simp only [hml, hmr] at *; omega)]
    simp only [hml, hmr] at *
    omega

/-- C1 witness: a concrete dot-leader section framed inside the width-20
fixture template produces lines of length exactly 20. -/
theorem claim_C1_width_invariant_witness :
    (("(-(      A..B    )-)").data : Str).length =
      (("====================").data : Str).length := by
  have h := claim_C1_width_invariant [("A: B").data] sepT20 false 1 true true
    [("=-=              =-=").data, ("(-(      A..B    )-)").data,
     ("=-=              =-=").data]
    (by decide) (by decide) (by decide) (by decide)
  exact h (("(-(      A..B    )-)").data) (by decide)

/-- C7: Motif cycling — the `j`-th physical output line of a framed section
(counting from 0 across the whole section, synthetic pad lines included) is
bordered by the motif at index `j mod (number of motifs)`. -/
theorem claim_C7_motif_cycling
    (lines tpl : List Str) (wrapFlag : Bool) (pad : Nat) (use_dots add_pad_lines : Bool)
    (framed : List Str)
    (h4 : 4 ≤ tpl.length)
    (hmot : extract_motifs (tpl.drop 3) ≠ [])
    (hfr : frame_section_lines lines tpl wrapFlag pad use_dots add_pad_lines = some framed) :
    ∀ j, j < framed.length → ∃ core,
      framed.getD j [] =
        ((extract_motifs (tpl.drop 3)).getD (j % (extract_motifs (tpl.drop 3)).length)
            ([], [])).1 ++
          List.replicate pad ' ' ++ core ++ List.replicate pad ' ' ++
          ((extract_motifs (tpl.drop 3)).getD (j % (extract_motifs (tpl.drop 3)).length)
            ([], [])).2 := by
  intro j hj
  unfold frame_section_lines at hfr
  rw [if_neg (by omega)] at hfr
  cases hx : extract_motifs (tpl.drop 3) with
  | nil => exact absurd hx hmot
  | cons m ms =>
    obtain ⟨ml, mr⟩ := m
    rw [hx] at hfr
    dsimp only at hfr
    obtain ⟨ch, hch⟩ := frameLoop_getD _ _ _ _ _ _ _ _ hfr j hj
    exact ⟨format_line ch
      (((tpl.headD []).length : Int) - (ml.length : Int) - (mr.length : Int) - 2 * (pad : Int))
      (use_dots && ch.contains ':'), by simpa using hch⟩

/-- C7 witness: with the two motifs of the width-20 fixture and a 5-line
framed section, physical line 3 is bordered by motif `3 % 2 = 1`. -/
theorem claim_C7_motif_cycling_witness :
    ∃ core, (("(-(      E..F    )-)").data : Str) =
      ("(-(").data ++ List.replicate 1 ' ' ++ core ++ List.replicate 1 ' ' ++
        (")-)").data := by
  have h := claim_C7_motif_cycling
    [("A: B").data, ("C: D").data, ("E: F").data] sepT20 false 1 true true
    [("=-=              =-=").data, ("(-(      A..B    )-)").data,
     ("=-=      C..D    =-=").data, ("(-(      E..F    )-)").data,
     ("=-=              =-=").data]
    (by decide) (by decide) (by decide) 3 (by decide)
  exact h

/-- C10: implicit `Header` fallback — with framing active, framing the
`Header` section (whose `add_pad_lines` is `false`) yields no output lines
exactly when all of its lines are empty or whitespace-only; in that case the
Document Assembler emits the raw input lines verbatim. -/
theorem claim_C10_header_fallback :
    (∀ (sl tpl : List Str), 4 ≤ tpl.length → extract_motifs (tpl.drop 3) ≠ [] →
      (frame_section_lines sl tpl true 1 false false = some [] ↔
        ∀ l ∈ sl, l.isEmpty = true ∨ (pyStrip l).isEmpty = true))
    ∧ (∀ (sl hb tpl : List Str),
        frame_section_lines sl tpl true 1 false false = some [] →
        body_lines [(("Header").data, sl)] hb tpl = some (hb ++ sl)) := by
  constructor
  · intro sl tpl h4 hmot
    unfold frame_section_lines
    rw [if_neg (by omega)]
    cases hx : extract_motifs (tpl.drop 3) with
    | nil => exact absurd hx hmot
    | cons m ms =>
      obtain ⟨ml, mr⟩ := m
      dsimp only
      constructor
      · intro h
        have hnil := frameLoop_eq_nil _ _ _ _ _ _ _ h
        have hc : sl.filter (fun l => !l.isEmpty && !(pyStrip l).isEmpty) = [] := by
          simpa using hnil
        intro l hl
        have := List.filter_eq_nil_iff.mp hc l hl
        simp only [Bool.and_eq_true, Bool.not_eq_true', not_and] at this
        by_cases h1 : l.isEmpty = true
        · exact Or.inl h1
        · exact Or.inr (by simpa using this (by simpa using h1))
      · intro h
        have hc : sl.filter (fun l => !l.isEmpty && !(pyStrip l).isEmpty) = [] := by
          apply List.filter_eq_nil_iff.mpr
          intro l hl
          rcases h l hl with h1 | h1 <;> simp [h1]
        rw [hc]
        rfl
  · intro sl hb tpl hfr
    unfold body_lines
    rw [headerLoop, if_pos rfl, hfr]
    rw [sectionLoop, if_pos rfl]
    rw [headerLoop, sectionLoop]
    simp

/-- C10 witness: a whitespace-only `Header` section inside the width-20
fixture template is emitted verbatim after the header banner. -/
theorem claim_C10_header_fallback_witness :
    body_lines [(("Header").data, [(" ").data])] [("HB").data] sepT20 =
      some [("HB").data, (" ").data] := by
  have h := claim_C10_header_fallback.2 [(" ").data] [("HB").data] sepT20 (by decide)
  exact h

/-! ### Claims C5 and C6: centering and the separator builder -/

theorem pyCenter_structure (s : Str) (w : Int) :
    ∃ lp rp : Nat,
      pyCenter s w = List.replicate lp ' ' ++ s ++ List.replicate rp ' ' ∧
      (rp = lp ∨ rp = lp + 1 ∨
        (lp = rp + 1 ∧ w.toNat % 2 = 1 ∧ (w.toNat - s.length) % 2 = 1)) := by
  rw [pyCenter]
  split
  · exact ⟨0, 0, by simp, Or.inl rfl⟩
  · next hgt =>
    dsimp only
    have hlt : s.length < w.toNat := by omega
    by_cases hodd : (w.toNat - s.length) % 2 = 1 ∧ w.toNat % 2 = 1
    · refine ⟨(w.toNat - s.length) / 2 + 1,
        w.toNat - s.length - ((w.toNat - s.length) / 2 + 1), ?_, ?_⟩
      · rw [if_pos hodd]
      · right; right
        refine ⟨by omega, hodd.2, hodd.1⟩
    · refine ⟨(w.toNat - s.length) / 2,
        w.toNat - s.length - ((w.toNat - s.length) / 2 + 0), ?_, ?_⟩
      · rw [if_neg hodd]; simp
      · by_cases he : (w.toNat - s.length) % 2 = 1
        · right; left; omega
        · left; omega

/-- C5 counterexample: the claim says the single extra space of an odd total
padding always goes to the right, so that the left padding never exceeds the
right.  But CPython's `str.center` puts it on the left when the target width
is odd: centering `"ab"` in width 5 (the Line Formatter's centered mode)
yields `"  ab "`, whose left padding (2) exceeds its right padding (1). -/
theorem claim_C5_centering_cex :
    format_line (("ab").data) 5 false = ("  ab ").data ∧
    ∀ lp rp : Nat,
      ("  ab ").data = List.replicate lp ' ' ++ ("ab").data ++ List.replicate rp ' ' →
      ¬ lp ≤ rp := by
  refine ⟨by decide, ?_⟩
  intro lp rp h hle
  have hlen : lp + (2 + rp) = 5 := by
    have h5 := congrArg List.length h
    simp [List.length_append, List.length_replicate] at h5
    omega
  have hlp : lp ≤ 1 := by omega
  interval_cases lp
  · have : rp = 3 := by omega
    subst this
    revert h; decide
  · have : rp = 2 := by omega
    subst this
    revert h; decide

/-- C5 amended: every text centered by the engine is truncated to the target
width and padded with spaces differing by at most one; the extra space goes to
the right, EXCEPT when the target width and the total padding are both odd, in
which case CPython's `str.center` puts it on the left.  Stated for the Line
Formatter's centered mode and for the Separator Builder's title centering. -/
theorem claim_C5_centering_amended :
    (∀ (line : Str) (w : Int), ∃ lp rp : Nat,
      format_line line w false =
        List.replicate lp ' ' ++ pyTake line w ++ List.replicate rp ' ' ∧
      (rp = lp ∨ rp = lp + 1 ∨
        (lp = rp + 1 ∧ w.toNat % 2 = 1 ∧
          (w.toNat - (pyTake line w).length) % 2 = 1)))
    ∧ (∀ (title top bottom : Str) (c1 c2 : Char) (ms : Str) (rest : List Str),
      ∃ lp rp : Nat,
        build_separator title (top :: (c1 :: c2 :: ms) :: bottom :: rest) =
          [top,
           (c1 :: c2 :: ms).take 1 ++
             (List.replicate lp ' ' ++
              pyTake title (((c1 :: c2 :: ms).length : Int) - 2) ++
              List.replicate rp ' ') ++
             (c1 :: c2 :: ms).drop ((c1 :: c2 :: ms).length - 1),
           bottom] ∧
        (rp = lp ∨ rp = lp + 1 ∨
          (lp = rp + 1 ∧ (((c1 :: c2 :: ms).length : Int) - 2).toNat % 2 = 1 ∧
            ((((c1 :: c2 :: ms).length : Int) - 2).toNat -
              (pyTake title (((c1 :: c2 :: ms).length : Int) - 2)).length) % 2 = 1))) := by
  constructor
  · intro line w
    obtain ⟨lp, rp, heq, hrel⟩ := pyCenter_structure (pyTake line w) w
    refine ⟨lp, rp, ?_, hrel⟩
    have hcl : format_line line w false = pyCenter (pyTake line w) w := by
      simp [format_line]
    rw [hcl]
    exact heq
  · intro title top bottom c1 c2 ms rest
    obtain ⟨lp, rp, heq, hrel⟩ :=
      pyCenter_structure (pyTake title (((c1 :: c2 :: ms).length : Int) - 2))
        (((c1 :: c2 :: ms).length : Int) - 2)
    refine ⟨lp, rp, ?_, hrel⟩
    rw [build_separator, if_neg (by simp only [List.length_cons]; omega)]
    dsimp only
    rw [heq]

/-- C6: Separator Builder contract — fewer than 3 template lines yields an
empty result; `inner_width = len(middle) − 2 < 1` returns the three lines
unchanged (for `len(middle) = 2` the rebuilt middle coincides with the
original); otherwise exactly 3 lines: top, the middle rebuilt around the
truncated centered title, bottom, the new middle as long as the original. -/
theorem claim_C6_separator_builder :
    (∀ (title : Str) (tpl : List Str), tpl.length < 3 → build_separator title tpl = [])
    ∧ (∀ (title top middle bottom : Str) (rest : List Str),
        (middle.length : Int) - 2 < 1 →
        build_separator title (top :: middle :: bottom :: rest) = [top, middle, bottom])
    ∧ (∀ (title top middle bottom : Str) (rest : List Str),
        1 ≤ (middle.length : Int) - 2 →
        build_separator title (top :: middle :: bottom :: rest) =
          [top,
           middle.take 1 ++
             pyCenter (pyTake title ((middle.length : Int) - 2))
               ((middle.length : Int) - 2) ++
             middle.drop (middle.length - 1),
           bottom] ∧
        (middle.take 1 ++
            pyCenter (pyTake title ((middle.length : Int) - 2))
              ((middle.length : Int) - 2) ++
            middle.drop (middle.length - 1)).length = middle.length) := by
  refine ⟨?_, ?_, ?_⟩
  · intro title tpl h
    rcases tpl with _ | ⟨a, _ | ⟨b, _ | ⟨c, t⟩⟩⟩
    · rfl
    · rfl
    · rfl
    · simp only [List.length_cons] at h; omega
  · intro title top middle bottom rest h
    rcases middle with _ | ⟨a, _ | ⟨b, t⟩⟩
    · simp [build_separator]
    · simp [build_separator]
    · have ht : t = [] := by
        cases t with
        | nil => rfl
        | cons x xs => simp only [List.length_cons] at h; omega
      subst ht
      simp [build_separator, pyTake, pyCenter]
  · intro title top middle bottom rest h
    have h2 : ¬ middle.length < 2 := by omega
    constructor
    · rw [build_separator, if_neg h2]
    · have h0 : (0 : Int) ≤ (middle.length : Int) - 2 := by omega
      simp only [List.length_append]
      rw [length_pyCenter _ _ (length_pyTake_le _ _ h0)]
      simp only [List.length_take, List.length_drop]
      omega

/-- C6 witness: the separator built from the width-20 fixture template for
title `General`. -/
theorem claim_C6_separator_builder_witness :
    build_separator (("General").data) sepT20 =
      [("====================").data, ("=     General      =").data,
       ("====================").data] := by
  have h := claim_C6_separator_builder.2.2 (("General").data)
    (("====================").data) (("=                  =").data)
    (("====================").data)
    [("=-=              =-=").data, ("(-(              )-)").data] (by decide)
  exact h.1.trans (by decide)

/-! ### Claim C4: dot-leader formatting -/

theorem pyTake_nonneg (s : Str) (n : Int) (h : 0 ≤ n) :
    pyTake s n = s.take n.toNat := by
  rw [pyTake, if_neg (by omega)]

theorem pyLjust_pyTake_eq_fit (s : Str) (w : Nat) :
    pyLjust (pyTake s (w : Int)) (w : Int) = fit_to_width s w := by
  rw [pyTake_natCast, fit_to_width, pyLjust]
  split
  · next hle =>
    have hl : (s.take w).length = w := by
      have := List.length_take w s
      omega
    simp [hl]
  · next hgt =>
    simp

/-- C4: dot-leader formatting — for every line containing `:` formatted with
`use_dots` at width `w ≥ 10`, the output follows the claim's recipe (split at
the first `:`, trim, center the key alone when the value is empty, otherwise
5 spaces + truncated key + a dot run of length `max 2 (usable − |key| − |value|)`
+ truncated value + 5 spaces, fitted to exactly `w`), and has length exactly
`w`; in particular `"Key: Value"` at width 40 gives a 40-character string
containing `Key`, `Value` and a contiguous run of exactly
`22 = max 2 (40 − 10 − 3 − 5)` dots. -/
theorem claim_C4_dot_leader :
    (∀ (line : Str) (w : Nat), 10 ≤ w → line.contains ':' = true →
      format_line line (w : Int) true = dot_leader_spec line w ∧
      (format_line line (w : Int) true).length = w)
    ∧ format_line (("Key: Value").data) 40 true =
        ("     Key").data ++ List.replicate 22 '.' ++ ("Value     ").data
    ∧ (format_line (("Key: Value").data) 40 true).length = 40
    ∧ 22 = max 2 (40 - 10 - (("Key").data : Str).length - (("Value").data : Str).length) := by
  refine ⟨?_, by decide, by decide, by decide⟩
  intro line w hw hcol
  constructor
  · rw [format_line, dot_leader_spec, if_pos (by simp only [Bool.true_and]; exact hcol)]
    dsimp only
    by_cases hv :
        (pyStrip ((line.dropWhile (fun c => c != ':')).drop 1)).isEmpty = true
    · simp only [hv, if_true]
      rw [pyTake_natCast]
    · simp only [hv, if_false]
      have hkey : pyTake (pyStrip (line.takeWhile (fun c => c != ':'))) ((w : Int) - 10) =
          (pyStrip (line.takeWhile (fun c => c != ':'))).take (w - 10) := by
        rw [pyTake_nonneg _ _ (by omega)]
        congr 1
        omega
      have hval : pyTake (pyStrip ((line.dropWhile (fun c => c != ':')).drop 1)) ((w : Int) - 10) =
          (pyStrip ((line.dropWhile (fun c => c != ':')).drop 1)).take (w - 10) := by
        rw [pyTake_nonneg _ _ (by omega)]
        congr 1
        omega
      rw [hkey, hval]
      have hdot :
          (max 2 ((w : Int) - 10 -
            ((((pyStrip (line.takeWhile (fun c => c != ':'))).take (w - 10)).length : Int)) -
            ((((pyStrip ((line.dropWhile (fun c => c != ':')).drop 1)).take (w - 10)).length : Int)))).toNat =
          max 2 (w - 10 -
            ((pyStrip (line.takeWhile (fun c => c != ':'))).take (w - 10)).length -
            ((pyStrip ((line.dropWhile (fun c => c != ':')).drop 1)).take (w - 10)).length) := by
        omega
      rw [hdot, pyLjust_pyTake_eq_fit]
      simp
  · exact (format_line_length line (w : Int) true (by omega)).trans (by omega)

/-- C4 witness: the general dot-leader recipe applied at `"Key: Value"` and
width 40. -/
theorem claim_C4_dot_leader_witness :
    format_line (("Key: Value").data) 40 true = dot_leader_spec (("Key: Value").data) 40 ∧
    (format_line (("Key: Value").data) 40 true).length = 40 := by
  exact claim_C4_dot_leader.1 (("Key: Value").data) 40 (by decide) (by decide)

/-! ### Claim C8: degradation without failure -/

/-- C8: if the separator template has fewer than 4 lines, or no motif-body
line has length at least 6, the Content Framer returns the input lines
unchanged; end-to-end, an empty separator template with the single section
`("General", ["X: Y"])` produces the line `General` followed by `X: Y`
unmodified. -/
theorem claim_C8_degradation :
    (∀ (lines tpl : List Str) (wrapFlag : Bool) (pad : Nat) (use_dots add_pad_lines : Bool),
      (tpl.length < 4 ∨ ∀ l ∈ tpl.drop 3, l.length < 6) →
      frame_section_lines lines tpl wrapFlag pad use_dots add_pad_lines = some lines)
    ∧ all_lines [(("General").data, [("X: Y").data])] [] [] [] =
        some [("General").data, ("X: Y").data]
    ∧ render_nfo_from_sections [(("General").data, [("X: Y").data])] [] [] [] =
        some (("General\nX: Y\n").data) := by
  refine ⟨?_, by decide, by decide⟩
  intro lines tpl wf pad ud apl h
  unfold frame_section_lines
  by_cases h4 : tpl.length < 4
  · rw [if_pos h4]
  · rw [if_neg h4]
    rcases h with h | h
    · exact absurd h h4
    · rw [extract_motifs_eq_nil h]

/-- C8 witness: a 1-line template (too short to frame) leaves the section
lines untouched. -/
theorem claim_C8_degradation_witness :
    frame_section_lines [("X: Y").data] [("ab").data] false 1 true true =
      some [("X: Y").data] :=
  claim_C8_degradation.1 [("X: Y").data] [("ab").data] false 1 true true
    (Or.inl (by decide))

/-! ### Claim C9: footer separation and final document form -/

/-- C9: when a footer banner is present, exactly one blank line is inserted
before it when the emitted lines are non-empty and do not already end in a
blank line; the final document is the emitted lines joined by newlines with
trailing whitespace stripped plus exactly one trailing newline (it ends in a
newline whose preceding text has no trailing whitespace). -/
theorem claim_C9_final_document
    (sections : List (Str × List Str)) (hb fb tpl : List Str) (L : List Str)
    (hL : all_lines sections hb fb tpl = some L) :
    (∃ body, body_lines sections hb tpl = some body ∧
      L = if fb.isEmpty then body
          else if body ≠ [] ∧ body.getLast? ≠ some [] then body ++ ([] : Str) :: fb
          else body ++ fb)
    ∧ render_nfo_from_sections sections hb fb tpl =
        some (pyRstrip (joinNL L) ++ ['\n'])
    ∧ (pyRstrip (joinNL L) ++ ['\n']).getLast? = some '\n'
    ∧ (∀ c, (pyRstrip (joinNL L)).getLast? = some c → isPySpace c = false) := by
  refine ⟨?_, ?_, ?_, ?_⟩
  · unfold all_lines at hL
    cases hbody : body_lines sections hb tpl with
    | none => rw [hbody] at hL; simp at hL
    | some body =>
      rw [hbody] at hL
      dsimp only at hL
      refine ⟨body, rfl, ?_⟩
      by_cases h1 : fb.isEmpty = true
      · rw [if_pos h1] at hL ⊢
        simpa using hL.symm
      · rw [if_neg h1] at hL ⊢
        by_cases h2 : body ≠ [] ∧ body.getLast? ≠ some []
        · rw [if_pos h2] at hL ⊢
          simpa using hL.symm
        · rw [if_neg h2] at hL ⊢
          simpa using hL.symm
  · unfold render_nfo_from_sections
    rw [hL]
    rfl
  · exact List.getLast?_concat _
  · exact fun c hc => pyRstrip_getLast_not_space _ _ hc

/-- C9 witness: a footer banner after a non-blank body gets exactly one
separating blank line, and the document ends in exactly one newline. -/
theorem claim_C9_final_document_witness :
    render_nfo_from_sections [(("General").data, [("X: Y").data])] [] [("FB").data] [] =
      some (("General\nX: Y\n\nFB\n").data) := by
  have h := claim_C9_final_document [(("General").data, [("X: Y").data])] [] [("FB").data] []
    [("General").data, ("X: Y").data, [], ("FB").data] (by decide)
  exact h.2.1.trans (by decide)

/-! ### Claim C3: Document Assembler flags and ordering -/

theorem headerLoop_eq (tpl : List Str) (sections : List (Str × List Str)) :
    headerLoop tpl sections =
      ((sections.filter (fun s => s.1 == ("Header").data)).mapM (header_block tpl)).map
        List.flatten := by
  induction sections with
  | nil => rfl
  | cons s rest ih =>
    obtain ⟨name, sl⟩ := s
    by_cases hname : name = ("Header").data
    · rw [headerLoop, if_pos hname,
        List.filter_cons_of_pos (by simpa using hname), List.mapM_cons]
      dsimp only [header_block]
      cases hf : frame_section_lines sl tpl true 1 false false with
      | none => simp
      | some framed =>
        dsimp only
        rw [ih]
        cases hm : (rest.filter (fun s => s.1 == ("Header").data)).mapM (header_block tpl) with
        | none => simp
        | some bs => simp
    · rw [headerLoop, if_neg hname,
        List.filter_cons_of_neg (by simpa using hname)]
      exact ih

theorem sectionLoop_eq (tpl : List Str) (sections : List (Str × List Str)) :
    sectionLoop tpl sections =
      ((sections.filter (fun s => !(s.1 == ("Header").data))).mapM (other_block tpl)).map
        List.flatten := by
  induction sections with
  | nil => rfl
  | cons s rest ih =>
    obtain ⟨name, sl⟩ := s
    by_cases hname : name = ("Header").data
    · rw [sectionLoop, if_pos hname,
        List.filter_cons_of_neg (by simpa using hname)]
      exact ih
    · rw [sectionLoop, if_neg hname,
        List.filter_cons_of_pos (by simpa using hname), List.mapM_cons]
      dsimp only [other_block]
      cases hf : frame_section_lines sl tpl (name == ("Summary").data) 1
          (!(name == ("Summary").data)) true with
      | none => simp
      | some framed =>
        dsimp only
        rw [ih]
        cases hm : (rest.filter (fun s => !(s.1 == ("Header").data))).mapM (other_block tpl) with
        | none => simp
        | some bs => simp

/-- C3: Document Assembler flags and ordering — the assembled body equals: the
header banner, then (in input order) the blocks of the sections named
`Header`, framed with `wrap=true, pad=1, use_dots=false, add_pad_lines=false`
and no separator (raw lines when framing is empty), then (in input order) the
blocks of every other section, each its titled separator (or bare name) and
its content framed with `wrap=(name=="Summary"), pad=1,
use_dots=(name!="Summary"), add_pad_lines=true`. -/
theorem claim_C3_assembler_flags (sections : List (Str × List Str)) (hb tpl : List Str) :
    body_lines sections hb tpl =
      ((sections.filter (fun s => s.1 == ("Header").data)).mapM (header_block tpl)).bind
        (fun hs =>
          ((sections.filter (fun s => !(s.1 == ("Header").data))).mapM (other_block tpl)).map
            (fun os => hb ++ hs.flatten ++ os.flatten)) := by
  unfold body_lines
  rw [headerLoop_eq, sectionLoop_eq]
  cases (sections.filter (fun s => s.1 == ("Header").data)).mapM (header_block tpl) with
  | none => rfl
  | some hs =>
    cases (sections.filter (fun s => !(s.1 == ("Header").data))).mapM (other_block tpl) with
    | none => rfl
    | some os => rfl

/-! ### Claim C2: the oversized-token "exception" -/

theorem expandtabsGo_eq_self (s : Str) (hns : ∀ c ∈ s, isPySpace c = false) :
    ∀ col, expandtabsGo s col = s := by
  induction s with
  | nil => intro col; rfl
  | cons c cs ih =>
    intro col
    have hc : isPySpace c = false := hns c (List.mem_cons_self _ _)
    simp only [isPySpace, Bool.or_eq_false_iff, beq_eq_false_iff_ne, ne_eq] at hc
    rw [expandtabsGo, if_neg hc.1.1.1.1.2, if_neg (by tauto)]
    rw [ih (fun d hd => hns d (List.mem_cons_of_mem c hd)) (col + 1)]

theorem munge_whitespace_eq_self (s : Str) (hns : ∀ c ∈ s, isPySpace c = false) :
    munge_whitespace s = s := by
  rw [munge_whitespace, expandtabsGo_eq_self s hns 0]
  have : ∀ c ∈ s, (if isPySpace c then ' ' else c) = c := by
    intro c hc; rw [hns c hc]; simp
  rw [List.map_congr_left this]
  simp

theorem splitRunsGo_nil (n : Nat) : splitRunsGo n [] = [] := by
  cases n <;> rfl

theorem splitRuns_single (t : Str) (ht : t ≠ [])
    (hns : ∀ c ∈ t, isPySpace c = false) : splitRuns t = [t] := by
  cases t with
  | nil => exact absurd rfl ht
  | cons c cs =>
    rw [splitRuns, List.length_cons, splitRunsGo]
    have hc : isPySpace c = false := hns c (List.mem_cons_self _ _)
    have hdw : cs.dropWhile (fun d => isPySpace d == isPySpace c) = [] := by
      apply List.dropWhile_eq_nil_iff.mpr
      intro d hd
      simp [hc, hns d (List.mem_cons_of_mem c hd)]
    have htw : cs.takeWhile (fun d => isPySpace d == isPySpace c) = cs := by
      have h0 := List.takeWhile_append_dropWhile
        (p := fun d => isPySpace d == isPySpace c) (l := cs)
      rw [hdw, List.append_nil] at h0
      exact h0
    rw [htw, hdw, splitRunsGo_nil]

theorem wrapChunksGo_single (width : Int) (t : Str)
    (ht : (pyStrip t).isEmpty = false) :
    wrapChunksGo width 2 [t] true = [t] := by
  by_cases hfit : (t.length : Int) ≤ width
  · simp [wrapChunksGo, greedyTake, hfit, ht]
  · have hlt : width < (t.length : Int) := by omega
    simp [wrapChunksGo, greedyTake, hfit, hlt, ht]

theorem textwrap_wrap_single_token (t : Str) (iw : Int) (h1 : 1 ≤ iw)
    (ht : t ≠ []) (hns : ∀ c ∈ t, isPySpace c = false) :
    textwrap_wrap t iw = some [t] := by
  have hstrip : (pyStrip t).isEmpty = false := by
    rw [pyStrip_eq_self t hns]
    cases t with
    | nil => exact absurd rfl ht
    | cons c cs => rfl
  rw [textwrap_wrap, if_neg (by omega)]
  show some (wrapChunksGo iw ((splitRuns (munge_whitespace t)).length + 1)
    (splitRuns (munge_whitespace t)) true) = some [t]
  rw [munge_whitespace_eq_self t hns, splitRuns_single t ht hns]
  show some (wrapChunksGo iw 2 [t] true) = some [t]
  rw [wrapChunksGo_single iw t hstrip]

theorem chunk_line_single_token (t : Str) (iw : Int) (h1 : 1 ≤ iw)
    (ht : t ≠ []) (hns : ∀ c ∈ t, isPySpace c = false) :
    chunk_line true t iw = some [t] := by
  rw [chunk_line, if_pos rfl, textwrap_wrap_single_token t iw h1 ht hns]
  cases t with
  | nil => exact absurd rfl ht
  | cons c cs => rfl

theorem frame_section_lines_eq (lines tpl : List Str) (wf : Bool) (pad : Nat)
    (ud apl : Bool) (m : Str × Str) (ms : List (Str × Str))
    (h4 : ¬ tpl.length < 4) (hx : extract_motifs (tpl.drop 3) = m :: ms) :
    frame_section_lines lines tpl wf pad ud apl =
      frameLoop (m :: ms)
        (((tpl.headD []).length : Int) - (m.1.length : Int) - (m.2.length : Int) -
          2 * (pad : Int))
        wf pad ud
        (if apl then
          none :: (lines.filter (fun l => !l.isEmpty && !(pyStrip l).isEmpty)).map some
            ++ [none]
         else (lines.filter (fun l => !l.isEmpty && !(pyStrip l).isEmpty)).map some)
        0 := by
  obtain ⟨ml, mr⟩ := m
  unfold frame_section_lines
  rw [if_neg h4, hx]

/-- C2 counterexample: the claim says a single unbroken token longer than
`inner_width` is emitted without truncation, making the line strictly wider
than `W`.  In the code `_format_line` truncates every chunk: the 8-character
token `abcdefgh`, framed with wrap in the width-12 fixture template
(`inner_width = 4`), is emitted as `abcd` inside a line of length exactly 12,
not wider. -/
theorem claim_C2_oversized_token_cex :
    frame_section_lines [("abcdefgh").data] sepT12 true 1 false false =
      some [("=-= abcd =-=").data] ∧
    (("=-= abcd =-=").data : Str).length = (sepT12.headD []).length ∧
    ((sepT12.headD []).length : Int) - 6 - 2 * 1 < (("abcdefgh").data : Str).length := by
  refine ⟨by decide, by decide, by decide⟩

/-- C2 amended: when the Content Framer runs with wrap set and a logical line
is a single unbroken token longer than `inner_width` (with
`inner_width ≥ 1`), the wrapper keeps the token in one chunk but the Line
Formatter truncates it to `inner_width`, so the emitted line has length
exactly `W` — the token is clipped, not emitted oversized. -/
theorem claim_C2_oversized_token_amended
    (token : Str) (tpl : List Str) (pad : Nat)
    (h4 : 4 ≤ tpl.length)
    (hmot : extract_motifs (tpl.drop 3) ≠ [])
    (htok : token ≠ [])
    (hns : ∀ c ∈ token, isPySpace c = false)
    (hW : 7 + 2 * pad ≤ (tpl.headD []).length)
    (hover : (tpl.headD []).length - 6 - 2 * pad < token.length) :
    frame_section_lines [token] tpl true pad false false =
      some [((extract_motifs (tpl.drop 3)).headD ([], [])).1 ++ List.replicate pad ' ' ++
        token.take ((tpl.headD []).length - 6 - 2 * pad) ++ List.replicate pad ' ' ++
        ((extract_motifs (tpl.drop 3)).headD ([], [])).2] ∧
    (((extract_motifs (tpl.drop 3)).headD ([], [])).1 ++ List.replicate pad ' ' ++
        token.take ((tpl.headD []).length - 6 - 2 * pad) ++ List.replicate pad ' ' ++
        ((extract_motifs (tpl.drop 3)).headD ([], [])).2).length =
      (tpl.headD []).length := by
  cases hx : extract_motifs (tpl.drop 3) with
  | nil => exact absurd hx hmot
  | cons m ms =>
    obtain ⟨ml, mr⟩ := m
    obtain ⟨hml, hmr⟩ :=
      extract_motifs_mem (m := (ml, mr)) (by rw [hx]; exact List.mem_cons_self _ _)
    dsimp only at hml hmr
    have hiw1 : (1 : Int) ≤ ((tpl.headD []).length : Int) - (ml.length : Int) -
        (mr.length : Int) - 2 * (pad : Int) := by
      rw [hml, hmr]; omega
    have htokE : token.isEmpty = false := by
      cases token with
      | nil => exact absurd rfl htok
      | cons c cs => rfl
    have hfmt : format_line token
        (((tpl.headD []).length : Int) - (ml.length : Int) - (mr.length : Int) -
          2 * (pad : Int)) (false && token.contains ':') =
        token.take ((tpl.headD []).length - 6 - 2 * pad) := by
      have hcl : format_line token
          (((tpl.headD []).length : Int) - (ml.length : Int) - (mr.length : Int) -
            2 * (pad : Int)) (false && token.contains ':') =
          pyCenter (pyTake token
            (((tpl.headD []).length : Int) - (ml.length : Int) - (mr.length : Int) -
              2 * (pad : Int)))
            (((tpl.headD []).length : Int) - (ml.length : Int) - (mr.length : Int) -
              2 * (pad : Int)) := by
        simp [format_line]
      rw [hcl, pyTake_nonneg _ _ (by omega)]
      have htn : (((tpl.headD []).length : Int) - (ml.length : Int) - (mr.length : Int) -
          2 * (pad : Int)).toNat = (tpl.headD []).length - 6 - 2 * pad := by
        rw [hml, hmr]; omega
      rw [htn, pyCenter]
      rw [if_pos (by
        have hlen : (token.take ((tpl.headD []).length - 6 - 2 * pad)).length =
            (tpl.headD []).length - 6 - 2 * pad := by
          rw [List.length_take]; omega
        rw [hlen, hml, hmr]; omega)]
    constructor
    · rw [frame_section_lines_eq [token] tpl true pad false false (ml, mr) ms
        (by omega) hx]
      have hfil : ([token] : List Str).filter
          (fun l => !l.isEmpty && !(pyStrip l).isEmpty) = [token] := by
        simp [List.filter, htokE, pyStrip_eq_self token hns]
      rw [hfil]
      simp only [Bool.false_eq_true, if_false, List.map_cons, List.map_nil]
      rw [frameLoop]
      simp only [Option.getD_some]
      rw [chunk_line_single_token token
        (((tpl.headD []).length : Int) - (((ml, mr).1 : Str).length : Int) -
          (((ml, mr).2 : Str).length : Int) - 2 * (pad : Int))
        (by try dsimp only
            exact hiw1) htok hns]
      try dsimp only
      rw [frameLoop]
      dsimp only [emitChunks]
      simp only [Nat.zero_mod, List.getD_cons_zero]
      try dsimp only
      rw [hfmt]
      simp [List.headD_cons]
    · simp only [hx, List.headD_cons, List.length_append, List.length_replicate]
      try dsimp only
      rw [hml, hmr, List.length_take]
      omega

/-- C2 amended witness: the concrete oversized token `abcdefgh` in the
width-12 fixture template is emitted clipped to the inner width, in a line of
exactly the template width. -/
theorem claim_C2_oversized_token_amended_witness :
    frame_section_lines [("abcdefgh").data] sepT12 true 1 false false =
      some [("=-=").data ++ List.replicate 1 ' ' ++ ("abcd").data ++
        List.replicate 1 ' ' ++ ("=-=").data] ∧
    ((("=-=").data : Str) ++ List.replicate 1 ' ' ++ ("abcd").data ++
        List.replicate 1 ' ' ++ ("=-=").data).length = 12 := by
  have h := claim_C2_oversized_token_amended (("abcdefgh").data) sepT12 1
    (by decide) (by decide) (by decide) (by decide) (by decide) (by decide)
  exact ⟨h.1.trans (by decide), h.2.trans (by decide)⟩

end NfoMaker
